import Mathlib

/-!
Verification of the osv.dev indexer's processing stage
(`docker/indexer/stages/processing/processing.go`, given as an unnamed
source file) and the storage key normalization exercised by
`docker/indexer/storage/storage_test.go`.

The development is a shallow embedding of the Go source:

* the per-item worker body `(*Stage).processGit` is embedded as a pure
  function over an explicit environment recording the outcomes of its
  effectful calls (bucket copy, `git.PlainOpen`, `Worktree`, `Checkout`)
  and the file tree seen by `filepath.Walk`;
* the coordinator `(*Stage).Run` is embedded as a small-step transition
  relation over an explicit state (semaphore count, coordinator program
  counter, in-flight workers, buffered error channel, input channel,
  cancellation flag), with goroutine scheduling nondeterministic;
* `crypto/md5`'s `md5.Sum` is implemented over byte lists
  (bytes are `Nat`, reduced `% 256` / `% 2^32` where the Go code relies
  on machine width).
-/

/-! ## Data model

`preparation.Result` (package `docker/indexer/stages/preparation`, whose
definition file is not part of the sources; its fields are taken from the
uses in `processing.go` and `storage_test.go`): repository name, repository
type, go-git checkout options, file-extension filters and the target
commit.  Byte strings (`[]byte`, `[20]byte`) are `List Nat` with each
element a byte value. -/

/-- Checkout options of go-git as used by `processGit`: the target hash,
a branch name and the `Force` flag (`processGit` sets `Force` before
calling `tree.Checkout`). -/
structure CheckoutOptions where
  Hash : List Nat
  Branch : String
  Force : Bool
deriving DecidableEq, Repr

/-- Repository type tag; `processing.go` recognizes only `shared.Git`
(the constant of the `shared` package, not itself among the sources) and
treats everything else as unknown. -/
inductive RepoType where
  | git
  | unknown
deriving DecidableEq, Repr

/-- The work item `preparation.Result` consumed by the processing stage. -/
structure Result where
  Name : String
  RType : RepoType
  CheckoutOptions : CheckoutOptions
  FileExts : List String
  Commit : List Nat
deriving DecidableEq, Repr

/-- `FileResult` of `processing.go`: per-file path, hash-algorithm tag and
digest bytes. -/
structure FileResult where
  Path : String
  HashType : String
  Hash : List Nat
deriving DecidableEq, Repr

/-! ## crypto/md5

`md5.Sum` over byte lists, as used by `processGit` (`hash := md5.Sum(buf)`),
then `hash[:]`).  Words are `Nat` kept below `2^32` by explicit reduction. -/

/-- Round-constant table `K` of MD5. -/
def md5K : List Nat :=
  [0xd76aa478, 0xe8c7b756, 0x242070db, 0xc1bdceee,
   0xf57c0faf, 0x4787c62a, 0xa8304613, 0xfd469501,
   0x698098d8, 0x8b44f7af, 0xffff5bb1, 0x895cd7be,
   0x6b901122, 0xfd987193, 0xa679438e, 0x49b40821,
   0xf61e2562, 0xc040b340, 0x265e5a51, 0xe9b6c7aa,
   0xd62f105d, 0x02441453, 0xd8a1e681, 0xe7d3fbc8,
   0x21e1cde6, 0xc33707d6, 0xf4d50d87, 0x455a14ed,
   0xa9e3e905, 0xfcefa3f8, 0x676f02d9, 0x8d2a4c8a,
   0xfffa3942, 0x8771f681, 0x6d9d6122, 0xfde5380c,
   0xa4beea44, 0x4bdecfa9, 0xf6bb4b60, 0xbebfbc70,
   0x289b7ec6, 0xeaa127fa, 0xd4ef3085, 0x04881d05,
   0xd9d4d039, 0xe6db99e5, 0x1fa27cf8, 0xc4ac5665,
   0xf4292244, 0x432aff97, 0xab9423a7, 0xfc93a039,
   0x655b59c3, 0x8f0ccc92, 0xffeff47d, 0x85845dd1,
   0x6fa87e4f, 0xfe2ce6e0, 0xa3014314, 0x4e0811a1,
   0xf7537e82, 0xbd3af235, 0x2ad7d2bb, 0xeb86d391]

/-- Per-round left-rotation amounts of MD5. -/
def md5S : List Nat :=
  [7, 12, 17, 22, 7, 12, 17, 22, 7, 12, 17, 22, 7, 12, 17, 22,
   5, 9, 14, 20, 5, 9, 14, 20, 5, 9, 14, 20, 5, 9, 14, 20,
   4, 11, 16, 23, 4, 11, 16, 23, 4, 11, 16, 23, 4, 11, 16, 23,
   6, 10, 15, 21, 6, 10, 15, 21, 6, 10, 15, 21, 6, 10, 15, 21]

/-- Left rotation of a 32-bit word (word given as a `Nat` below `2^32`). -/
def rotl32 (x s : Nat) : Nat :=
  (Nat.lor ((x <<< s) % 4294967296) (x >>> (32 - s))) % 4294967296

/-- Bitwise complement of a 32-bit word. -/
def not32 (x : Nat) : Nat := Nat.xor x 4294967295

/-- One MD5 round: state is `(A, B, C, D)`, `M` the sixteen message words
of the current block, `i` the round index. -/
def md5Round (M : List Nat) (st : Nat × Nat × Nat × Nat) (i : Nat) :
    Nat × Nat × Nat × Nat :=
  let A := st.1
  let B := st.2.1
  let C := st.2.2.1
  let D := st.2.2.2
  let F :=
    if i < 16 then Nat.lor (Nat.land B C) (Nat.land (not32 B) D)
    else if i < 32 then Nat.lor (Nat.land D B) (Nat.land (not32 D) C)
    else if i < 48 then Nat.xor (Nat.xor B C) D
    else Nat.xor C (Nat.lor B (not32 D))
  let g :=
    if i < 16 then i
    else if i < 32 then (5 * i + 1) % 16
    else if i < 48 then (3 * i + 5) % 16
    else (7 * i) % 16
  let Fv := (F + A + md5K.getD i 0 + M.getD g 0) % 4294967296
  (D, (B + rotl32 Fv (md5S.getD i 0)) % 4294967296, B, C)

/-- Decode a 64-byte block into sixteen little-endian 32-bit words. -/
def md5Words (block : List Nat) : List Nat :=
  (List.range 16).map (fun j =>
    block.getD (4 * j) 0 + 256 * block.getD (4 * j + 1) 0 +
    65536 * block.getD (4 * j + 2) 0 + 16777216 * block.getD (4 * j + 3) 0)

/-- Process one 64-byte block, updating the four 32-bit registers. -/
def md5Block (st : Nat × Nat × Nat × Nat) (block : List Nat) :
    Nat × Nat × Nat × Nat :=
  let M := md5Words block
  let r := (List.range 64).foldl (md5Round M) st
  ((st.1 + r.1) % 4294967296, (st.2.1 + r.2.1) % 4294967296,
   (st.2.2.1 + r.2.2.1) % 4294967296, (st.2.2.2 + r.2.2.2) % 4294967296)

/-- MD5 padding: append `0x80`, zero bytes up to 56 mod 64, then the
original bit length as eight little-endian bytes. -/
def md5Pad (msg : List Nat) : List Nat :=
  let len := msg.length
  let z := (120 - (len + 1) % 64) % 64
  msg ++ [0x80] ++ List.replicate z 0 ++
    (List.range 8).map (fun i => ((len * 8) % 18446744073709551616) >>> (8 * i) % 256)

/-- Split a byte list into 64-byte chunks (first argument is fuel,
instantiated with the list length). -/
def md5Chunks : Nat → List Nat → List (List Nat)
  | 0, _ => []
  | _ + 1, [] => []
  | fuel + 1, l => l.take 64 :: md5Chunks fuel (l.drop 64)

/-- Serialize a 32-bit word as four little-endian bytes. -/
def le4 (x : Nat) : List Nat :=
  [x % 256, (x >>> 8) % 256, (x >>> 16) % 256, (x >>> 24) % 256]

/-- The MD5 digest (`md5.Sum`) of a byte list: sixteen bytes. -/
def md5Sum (msg : List Nat) : List Nat :=
  let padded := md5Pad msg
  let st := (md5Chunks padded.length padded).foldl md5Block
    (0x67452301, 0xefcdab89, 0x98badcfe, 0x10325476)
  le4 st.1 ++ le4 st.2.1 ++ le4 st.2.2.1 ++ le4 st.2.2.2

/-! ## path/filepath -/

/-- Auxiliary scan for `filepath.Ext`, over the reversed character list of
the path: collect characters until the final dot (extension found) or a
path separator / the start of the string (no extension). -/
def extRevAux (acc : List Char) : List Char → List Char
  | [] => []
  | c :: rest =>
    if c = '/' then []
    else if c = '.' then '.' :: acc
    else extRevAux (c :: acc) rest

/-- Go's `filepath.Ext`: the suffix beginning at the final dot in the
final slash-separated element of the path; empty if there is no dot. -/
def filepathExt (p : String) : String :=
  ⟨extRevAux [] p.data.reverse⟩

/-- Go's `filepath.Join` for a clean directory and a relative name, as
`filepath.Walk` forms the paths it hands to the callback. -/
def pathJoin (dir name : String) : String :=
  dir ++ "/" ++ name

/-! ## The file tree seen by filepath.Walk

`filepath.Walk(repoDir, fn)` visits `repoDir` itself and then every entry
below it, handing the callback the root-joined path of each entry.  The
tree below the checkout directory is modelled as the list of its entries
in traversal order; each entry carries its path relative to the root, a
directory flag and, for files, its readable content (`none` models a file
whose `os.ReadFile` fails). -/

/-- One entry below the checkout directory, path relative to it. -/
structure FSEntry where
  rel : String
  isDir : Bool
  content : Option (List Nat)
deriving DecidableEq, Repr

/-- One callback invocation of `filepath.Walk`: the root-joined path `p`,
the `info.IsDir()` flag and the content `os.ReadFile p` would return. -/
structure WalkEntry where
  path : String
  isDir : Bool
  content : Option (List Nat)
deriving DecidableEq, Repr

/-- The sequence of callback invocations `filepath.Walk(repoDir, fn)`
performs: the root directory itself, then every entry with its root-joined
path. -/
def walkEntries (repoDir : String) (entries : List FSEntry) : List WalkEntry :=
  ⟨repoDir, true, none⟩ ::
    entries.map (fun e => ⟨pathJoin repoDir e.rel, e.isDir, e.content⟩)

/-! ## processGit's walk callback

The callback body of `processGit` (the `filepath.Walk` closure): skip
directories; for each extension in `repoInfo.FileExts` (the loop does not
stop at the first match), if `filepath.Ext(p)` equals it, read the file —
a read failure aborts the whole walk with that error — hash the content
and append a `FileResult`. -/

/-- The inner `for _, ext := range repoInfo.FileExts` loop for one file at
path `p` with content `content`: one `FileResult` appended per matching
extension occurrence, or a read error if the file matches and is
unreadable. -/
def hashMatches (exts : List String) (p : String) (content : Option (List Nat)) :
    Except String (List FileResult) :=
  match exts with
  | [] => .ok []
  | ext :: rest =>
    if filepathExt p = ext then
      match content with
      | none => .error ("read error: " ++ p)
      | some buf =>
        match hashMatches rest p content with
        | .error e => .error e
        | .ok l => .ok (⟨p, "MD5", md5Sum buf⟩ :: l)
    else hashMatches rest p content

/-- The whole `filepath.Walk` pass of `processGit`: fold the callback over
the walk entries in traversal order, aborting at the first error, and
collect the appended `FileResult`s. -/
def walkHash (exts : List String) : List WalkEntry → Except String (List FileResult)
  | [] => .ok []
  | e :: rest =>
    if e.isDir then walkHash exts rest
    else
      match hashMatches exts e.path e.content with
      | .error er => .error er
      | .ok frs =>
        match walkHash exts rest with
        | .error er => .error er
        | .ok more => .ok (frs ++ more)

/-! ## processGit -/

/-- Environment of one `processGit` call: outcomes of its effectful
dependencies.  `copyRes` is `shared.CopyFromBucket` (the private checkout
directory on success), `openOk` is `git.PlainOpen`, `worktreeOk` is
`repo.Worktree()`, `checkoutOk` is `tree.Checkout`, `entries` is the tree
below the checkout directory, and `storeErr` the result of
`Storer.Store`. -/
structure GitEnv where
  copyRes : Except String String
  openOk : Bool
  worktreeOk : Bool
  checkoutOk : Bool
  entries : List FSEntry
  storeErr : Option String
deriving Repr

/-- Observable outcome of one `processGit` call: the caller-visible work
item after the call (`repoInfo` is passed by pointer, so the `Force`
assignment is visible to the caller), the `Store` invocations it made and
the error it returned. -/
structure GitOutcome where
  repoInfo : Result
  storeCalls : List (Result × List FileResult)
  error : Option String
deriving DecidableEq, Repr

/-- The body of `(*Stage).processGit`, in source order: copy from the
bucket, open the repository, obtain the worktree, set
`repoInfo.CheckoutOptions.Force = true`, check out, walk and hash, then
`Store` — each step short-circuiting to an error return. -/
def processGit (env : GitEnv) (repoInfo : Result) : GitOutcome :=
  match env.copyRes with
  | .error e => ⟨repoInfo, [], some e⟩
  | .ok repoDir =>
    if env.openOk = false then
      ⟨repoInfo, [], some "failed to open repo"⟩
    else if env.worktreeOk = false then
      ⟨repoInfo, [], some "worktree error"⟩
    else
      let repoInfo :=
        { repoInfo with
          CheckoutOptions := { repoInfo.CheckoutOptions with Force := true } }
      if env.checkoutOk = false then
        ⟨repoInfo, [], some "checkout error"⟩
      else
        match walkHash repoInfo.FileExts (walkEntries repoDir env.entries) with
        | .error e => ⟨repoInfo, [], some e⟩
        | .ok fileResults => ⟨repoInfo, [(repoInfo, fileResults)], env.storeErr⟩

/-! ## The coordinator Stage.Run

`(*Stage).Run` is embedded as a small-step transition relation.  The state
records the weighted semaphore's acquired count (`cur`, capacity
`workers = 25`), the coordinator's position in the loop (`pc`), the number
of running worker goroutines (`inflight`), the number of errors buffered
in the `wErr` channel (capacity `workers`; a worker whose send would block
simply has not completed yet), the items the producer will still deliver
on `input` (`pending`), whether `input` has been closed, whether the
context has been cancelled, and how many worker errors the coordinator has
logged.  Scheduling (which goroutine moves, which ready `select` branch
fires) is nondeterministic. -/

/-- The `workers` constant of `processing.go`. -/
def workers : Nat := 25

/-- Position of the coordinator inside `Run`'s loop.

* `loopTop`: about to call `sem.Acquire(ctx, 1)`;
* `sel`: holding one fresh unit, at the three-way `select` (with the
  iteration-local `ok` still `false`);
* `launch i`: received item `i` from `input` (`ok = true`), about to start
  the worker goroutine;
* `drain`: broke out of the loop with `ok = false`, at the final
  `sem.Acquire(ctx, workers)`;
* `retAcqErr`: returned the "failed to acquire semaphore" error;
* `retCanceled`: returned `context.Canceled` from the `select`;
* `retDrainOk`: the final acquire succeeded, `Run` returned `nil`;
* `retDrainErr`: the final acquire failed with the context's error. -/
inductive CoordPC where
  | loopTop
  | sel
  | launch (item : Result)
  | drain
  | retAcqErr
  | retCanceled
  | retDrainOk
  | retDrainErr
deriving DecidableEq, Repr

/-- Global state of one `Run` invocation together with its workers and the
producer-side view of the `input` channel. -/
structure RunState where
  cur : Nat
  pc : CoordPC
  inflight : Nat
  wErrQ : Nat
  pending : List Result
  closed : Bool
  cancelled : Bool
  logged : Nat
deriving DecidableEq, Repr

/-- State at the start of `Run`, with the items the producer will send. -/
def initState (items : List Result) : RunState :=
  ⟨0, .loopTop, 0, 0, items, false, false, 0⟩

/-- One step of the coordinator, a worker, or the environment.

Semaphore semantics follow `golang.org/x/sync/semaphore`: `Acquire(ctx, n)`
succeeds immediately whenever `cur + n ≤ size` (even under a cancelled
context — the fast path does not consult `ctx`), and can return the
context's error only when it would have to wait (`size < cur + n`) and the
context is cancelled. -/
inductive Step : RunState → RunState → Prop where
  /-- `sem.Acquire(ctx, 1)` at the top of the loop succeeds. -/
  | acquire1 (s : RunState) :
      s.pc = .loopTop → s.cur + 1 ≤ workers →
      Step s { s with cur := s.cur + 1, pc := .sel }
  /-- `sem.Acquire(ctx, 1)` has to wait and the context is cancelled:
  `Run` returns the "failed to acquire semaphore" error. -/
  | acquire1Cancel (s : RunState) :
      s.pc = .loopTop → s.cancelled = true → workers < s.cur + 1 →
      Step s { s with pc := .retAcqErr }
  /-- The `select` receives a work item from `input` (`ok = true`). -/
  | recvItem (s : RunState) (i : Result) (rest : List Result) :
      s.pc = .sel → s.pending = i :: rest →
      Step s { s with pending := rest, pc := .launch i }
  /-- The `select` receives from the closed, empty `input` channel:
  `ok = false`, so the loop breaks into the drain. -/
  | recvClosed (s : RunState) :
      s.pc = .sel → s.pending = [] → s.closed = true →
      Step s { s with pc := .drain }
  /-- The `select` dequeues a worker error from `wErr` and logs it; this
  branch leaves the iteration-local `ok` at `false`, so `if !ok` breaks
  the loop into the drain. -/
  | recvErr (s : RunState) :
      s.pc = .sel → 1 ≤ s.wErrQ →
      Step s { s with wErrQ := s.wErrQ - 1, logged := s.logged + 1, pc := .drain }
  /-- The `select` takes the `ctx.Done()` branch: `Run` returns
  `context.Canceled`. -/
  | recvCancel (s : RunState) :
      s.pc = .sel → s.cancelled = true →
      Step s { s with pc := .retCanceled }
  /-- The `go func() {...}()` statement starts the worker; the fresh
  semaphore unit is now the worker's to release. -/
  | launchWorker (s : RunState) (i : Result) :
      s.pc = .launch i →
      Step s { s with inflight := s.inflight + 1, pc := .loopTop }
  /-- A worker finishes without error and runs `defer sem.Release(1)`. -/
  | workerOk (s : RunState) :
      1 ≤ s.inflight →
      Step s { s with inflight := s.inflight - 1, cur := s.cur - 1 }
  /-- A worker finishes with an error: `wErr <- err` (needs buffer space,
  else the worker is still blocked in the send), then `sem.Release(1)`. -/
  | workerErr (s : RunState) :
      1 ≤ s.inflight → s.wErrQ + 1 ≤ workers →
      Step s { s with inflight := s.inflight - 1, cur := s.cur - 1,
                      wErrQ := s.wErrQ + 1 }
  /-- The environment cancels the context. -/
  | cancelCtx (s : RunState) :
      Step s { s with cancelled := true }
  /-- The producer closes `input` after sending everything. -/
  | closeInput (s : RunState) :
      s.pending = [] →
      Step s { s with closed := true }
  /-- The final `sem.Acquire(ctx, workers)` succeeds: `Run` returns
  `nil`. -/
  | drainOk (s : RunState) :
      s.pc = .drain → s.cur + workers ≤ workers →
      Step s { s with cur := s.cur + workers, pc := .retDrainOk }
  /-- The final `sem.Acquire(ctx, workers)` has to wait and the context is
  cancelled: `Run` returns the context's error. -/
  | drainCancel (s : RunState) :
      s.pc = .drain → s.cancelled = true → workers < s.cur + workers →
      Step s { s with pc := .retDrainErr }

/-- Reachability of a state in a run whose producer sends `items`. -/
def Reachable (items : List Result) (s : RunState) : Prop :=
  Relation.ReflTransGen Step (initState items) s

/-- Semaphore units the coordinator itself is holding (acquired at the top
of the loop and not yet transferred to a worker) at each position. -/
def CoordPC.hold : CoordPC → Nat
  | .loopTop => 0
  | .sel => 1
  | .launch _ => 1
  | .drain => 1
  | .retAcqErr => 0
  | .retCanceled => 1
  | .retDrainOk => 0
  | .retDrainErr => 1

/-- Inductive invariant of `Run`: the acquired count is exactly the
in-flight workers plus the coordinator's own holding, it never exceeds the
capacity, a successful return from the drain is impossible, and the drain
returns early only under a cancelled context. -/
def RunInv (s : RunState) : Prop :=
  s.cur = s.inflight + s.pc.hold ∧
  s.cur ≤ workers ∧
  s.pc ≠ .retDrainOk ∧
  (s.pc = .retDrainErr → s.cancelled = true)

/-- Every reachable state of `Run` satisfies the invariant. -/
theorem reachable_runInv (items : List Result) (s : RunState)
    (h : Reachable items s) : RunInv s := by
  induction h with
  | refl =>
    exact ⟨rfl, by simp [initState, workers], by simp [initState], by simp [initState]⟩
  | @tail b c _ hstep ih =>
    obtain ⟨ih1, ih2, ih3, ih4⟩ := ih
    cases hstep with
    | acquire1 hpc hcap =>
      rw [hpc] at ih1
      have e1 : b.cur = b.inflight + 0 := ih1
      refine ⟨?_, hcap, by simp, by simp⟩
      show b.cur + 1 = b.inflight + 1
      omega
    | acquire1Cancel hpc hcanc hcap =>
      rw [hpc] at ih1
      have e1 : b.cur = b.inflight + 0 := ih1
      exact ⟨e1, ih2, by simp, by simp⟩
    | recvItem i rest hpc hpend =>
      rw [hpc] at ih1
      have e1 : b.cur = b.inflight + 1 := ih1
      exact ⟨e1, ih2, by simp, by simp⟩
    | recvClosed hpc hpend hcl =>
      rw [hpc] at ih1
      have e1 : b.cur = b.inflight + 1 := ih1
      exact ⟨e1, ih2, by simp, by simp⟩
    | recvErr hpc hq =>
      rw [hpc] at ih1
      have e1 : b.cur = b.inflight + 1 := ih1
      exact ⟨e1, ih2, by simp, by simp⟩
    | recvCancel hpc hcanc =>
      rw [hpc] at ih1
      have e1 : b.cur = b.inflight + 1 := ih1
      exact ⟨e1, ih2, by simp, by simp⟩
    | launchWorker i hpc =>
      rw [hpc] at ih1
      have e1 : b.cur = b.inflight + 1 := ih1
      refine ⟨?_, ih2, by simp, by simp⟩
      show b.cur = (b.inflight + 1) + 0
      omega
    | workerOk hinf =>
      refine ⟨?_, ?_, ih3, ih4⟩
      · show b.cur - 1 = (b.inflight - 1) + b.pc.hold
        omega
      · show b.cur - 1 ≤ workers
        omega
    | workerErr hinf hq =>
      refine ⟨?_, ?_, ih3, ih4⟩
      · show b.cur - 1 = (b.inflight - 1) + b.pc.hold
        omega
      · show b.cur - 1 ≤ workers
        omega
    | cancelCtx =>
      exact ⟨ih1, ih2, ih3, fun _ => rfl⟩
    | closeInput hpend =>
      exact ⟨ih1, ih2, ih3, ih4⟩
    | drainOk hpc hcap =>
      rw [hpc] at ih1
      have e1 : b.cur = b.inflight + 1 := ih1
      have hw : 1 ≤ workers := by simp [workers]
      exact absurd hcap (by omega)
    | drainCancel hpc hcanc hcap =>
      rw [hpc] at ih1
      have e1 : b.cur = b.inflight + 1 := ih1
      exact ⟨e1, ih2, by simp, fun _ => hcanc⟩

/-! ## Claims about Run -/

/-- C3: Stage.Run maintains a weighted semaphore of fixed capacity 25,
acquiring one unit before consuming each work item, with each worker
releasing its unit on completion; in every reachable state the number of
concurrently executing workers never exceeds 25. -/
theorem run_bounded_concurrency (items : List Result) (s : RunState)
    (h : Reachable items s) : s.inflight ≤ workers := by
  obtain ⟨h1, h2, _, _⟩ := reachable_runInv items s h
  omega

/-- Witness for `run_bounded_concurrency` at the initial state of a run. -/
theorem run_bounded_concurrency_witness : (initState []).inflight ≤ workers :=
  run_bounded_concurrency [] (initState []) Relation.ReflTransGen.refl

/-- C2 (code bug): Run can never return successfully from the drain.  The
unit acquired by the coordinator at the top of the final iteration (the
one in which the receive reported the channel closed, or a worker error
was dequeued) is never released, so the acquired count stays at least 1 in
the drain and the final `sem.Acquire(ctx, workers)` can never be
satisfied: no reachable state has `Run` returning `nil`. -/
theorem run_drain_never_returns_ok (items : List Result) (s : RunState)
    (h : Reachable items s) : s.pc ≠ CoordPC.retDrainOk :=
  (reachable_runInv items s h).2.2.1

/-- Witness for `run_drain_never_returns_ok` at the initial state. -/
theorem run_drain_never_returns_ok_witness :
    (initState []).pc ≠ CoordPC.retDrainOk :=
  run_drain_never_returns_ok [] (initState []) Relation.ReflTransGen.refl

/-- A concrete work item. -/
def itemA : Result := ⟨"repoA", .git, ⟨[], "", false⟩, [".c"], [1]⟩

/-- A second concrete work item. -/
def itemB : Result := ⟨"repoB", .git, ⟨[], "", false⟩, [".c"], [2]⟩

/-- The state reached after the coordinator dequeues the first worker's
error: in the drain, with `itemB` still pending on the open channel. -/
def c1Stuck : RunState := ⟨1, .drain, 0, 0, [itemB], false, false, 1⟩

/-- C1 (code bug): dequeuing a worker error ends admission.  With two
items queued, after the first item's worker reports an error the `select`
can dequeue it; the `wErr` branch leaves the iteration-local `ok` at
`false`, so the loop breaks: the coordinator reaches the drain having
logged the error once, while `itemB` is still pending and the input
channel is not closed — it does not continue admitting work. -/
theorem run_worker_error_stops_admission :
    Reachable [itemA, itemB] c1Stuck ∧ c1Stuck.pc = CoordPC.drain ∧
    c1Stuck.pending = [itemB] ∧ c1Stuck.closed = false ∧ c1Stuck.logged = 1 := by
  refine ⟨?_, rfl, rfl, rfl, rfl⟩
  have t1 : Step (initState [itemA, itemB])
      ⟨1, .sel, 0, 0, [itemA, itemB], false, false, 0⟩ :=
    Step.acquire1 _ rfl (by decide)
  have t2 : Step ⟨1, .sel, 0, 0, [itemA, itemB], false, false, 0⟩
      ⟨1, .launch itemA, 0, 0, [itemB], false, false, 0⟩ :=
    Step.recvItem _ itemA [itemB] rfl rfl
  have t3 : Step ⟨1, .launch itemA, 0, 0, [itemB], false, false, 0⟩
      ⟨1, .loopTop, 1, 0, [itemB], false, false, 0⟩ :=
    Step.launchWorker _ itemA rfl
  have t4 : Step ⟨1, .loopTop, 1, 0, [itemB], false, false, 0⟩
      ⟨0, .loopTop, 0, 1, [itemB], false, false, 0⟩ :=
    Step.workerErr _ (by decide) (by decide)
  have t5 : Step ⟨0, .loopTop, 0, 1, [itemB], false, false, 0⟩
      ⟨1, .sel, 0, 1, [itemB], false, false, 0⟩ :=
    Step.acquire1 _ rfl (by decide)
  have t6 : Step ⟨1, .sel, 0, 1, [itemB], false, false, 0⟩ c1Stuck :=
    Step.recvErr _ rfl (by decide)
  exact ((((((Relation.ReflTransGen.refl.tail t1).tail t2).tail t3).tail
    t4).tail t5).tail t6)

/-- A third concrete work item. -/
def itemC : Result := ⟨"repoC", .git, ⟨[], "", false⟩, [".c"], [3]⟩

/-- The state in which `Run` has returned the context's error from the
drain while one worker is still in flight. -/
def c9Final : RunState := ⟨2, .retDrainErr, 1, 0, [], true, true, 0⟩

/-- Concrete run reaching `c9Final`: one item admitted, its worker still
running, the channel closed, the context cancelled during the drain, and
the final `sem.Acquire(ctx, workers)` returning the context's error. -/
theorem c9_trace : Reachable [itemC] c9Final := by
  have t1 : Step (initState [itemC]) ⟨1, .sel, 0, 0, [itemC], false, false, 0⟩ :=
    Step.acquire1 _ rfl (by decide)
  have t2 : Step ⟨1, .sel, 0, 0, [itemC], false, false, 0⟩
      ⟨1, .launch itemC, 0, 0, [], false, false, 0⟩ :=
    Step.recvItem _ itemC [] rfl rfl
  have t3 : Step ⟨1, .launch itemC, 0, 0, [], false, false, 0⟩
      ⟨1, .loopTop, 1, 0, [], false, false, 0⟩ :=
    Step.launchWorker _ itemC rfl
  have t4 : Step ⟨1, .loopTop, 1, 0, [], false, false, 0⟩
      ⟨2, .sel, 1, 0, [], false, false, 0⟩ :=
    Step.acquire1 _ rfl (by decide)
  have t5 : Step ⟨2, .sel, 1, 0, [], false, false, 0⟩
      ⟨2, .sel, 1, 0, [], true, false, 0⟩ :=
    Step.closeInput _ rfl
  have t6 : Step ⟨2, .sel, 1, 0, [], true, false, 0⟩
      ⟨2, .drain, 1, 0, [], true, false, 0⟩ :=
    Step.recvClosed _ rfl rfl rfl
  have t7 : Step ⟨2, .drain, 1, 0, [], true, false, 0⟩
      ⟨2, .drain, 1, 0, [], true, true, 0⟩ :=
    Step.cancelCtx _
  have t8 : Step ⟨2, .drain, 1, 0, [], true, true, 0⟩ c9Final :=
    Step.drainCancel _ rfl rfl (by decide)
  exact (((((((Relation.ReflTransGen.refl.tail t1).tail t2).tail t3).tail
    t4).tail t5).tail t6).tail t7).tail t8

/-- C9 (counterexample): the drain phase does re-check cancellation.  In a
reachable run the context is cancelled during the final capacity
re-acquisition and `Run` returns the context's error while a worker is
still in flight, rather than waiting for it. -/
theorem run_drain_cancelled_early_return :
    Reachable [itemC] c9Final ∧ c9Final.pc = CoordPC.retDrainErr ∧
    1 ≤ c9Final.inflight ∧ c9Final.cancelled = true :=
  ⟨c9_trace, rfl, by decide, rfl⟩

/-- C9 (amended): the final `sem.Acquire(ctx, workers)` is passed the
context, so the drain waits for the outstanding workers only while the
context is live: `Run` can leave the drain without the full capacity
(state `retDrainErr`) only if the context has been cancelled. -/
theorem run_drain_early_return_only_if_cancelled (items : List Result)
    (s : RunState) (h : Reachable items s)
    (hpc : s.pc = CoordPC.retDrainErr) : s.cancelled = true :=
  (reachable_runInv items s h).2.2.2 hpc

/-- Witness for `run_drain_early_return_only_if_cancelled` at the concrete
run of `c9_trace`. -/
theorem run_drain_early_return_only_if_cancelled_witness :
    c9Final.cancelled = true :=
  run_drain_early_return_only_if_cancelled [itemC] c9Final c9_trace rfl

/-! ## Characterization of the walk -/

/-- A readable file at path `p` yields one identical `FileResult` per
occurrence of its extension in the extension list. -/
theorem hashMatches_some_eq (exts : List String) (p : String) (buf : List Nat) :
    hashMatches exts p (some buf) =
      .ok (List.replicate (exts.count (filepathExt p)) ⟨p, "MD5", md5Sum buf⟩) := by
  induction exts with
  | nil => simp [hashMatches]
  | cons ext rest ih =>
    by_cases h : filepathExt p = ext
    · subst h
      simp [hashMatches, ih, List.count_cons, List.replicate_succ]
    · simp [hashMatches, h, ih, List.count_cons, fun hh : ext = filepathExt p => h hh.symm]

/-- An unreadable file errors iff its extension is in the list, and is
silently skipped otherwise. -/
theorem hashMatches_none_eq (exts : List String) (p : String) :
    hashMatches exts p none =
      if filepathExt p ∈ exts then .error ("read error: " ++ p) else .ok [] := by
  induction exts with
  | nil => simp [hashMatches]
  | cons ext rest ih =>
    by_cases h : filepathExt p = ext
    · subst h
      simp [hashMatches]
    · simp [hashMatches, h, ih, fun hh : filepathExt p = ext => h hh]

/-- Every `FileResult` of a successful walk comes from a non-directory
entry: it carries that entry's (root-joined) path, the `"MD5"` tag and the
digest of that entry's readable content, and the entry's extension is in
the list. -/
theorem walkHash_ok_mem (exts : List String) (entries : List WalkEntry)
    (frs : List FileResult) (fr : FileResult)
    (h : walkHash exts entries = .ok frs) (hfr : fr ∈ frs) :
    ∃ e ∈ entries, e.isDir = false ∧ fr.Path = e.path ∧ fr.HashType = "MD5" ∧
      filepathExt e.path ∈ exts ∧
      ∃ buf, e.content = some buf ∧ fr.Hash = md5Sum buf := by
  induction entries generalizing frs with
  | nil =>
    simp only [walkHash] at h
    obtain rfl : ([] : List FileResult) = frs := by simpa using h
    simp at hfr
  | cons e0 rest ih =>
    by_cases hd0 : e0.isDir = true
    · simp only [walkHash, hd0, if_true] at h
      obtain ⟨e, he, hrest⟩ := ih frs h hfr
      exact ⟨e, List.mem_cons_of_mem _ he, hrest⟩
    · simp only [walkHash, hd0, if_false] at h
      rcases hc : e0.content with _ | buf
      · rw [hc, hashMatches_none_eq] at h
        by_cases hm : filepathExt e0.path ∈ exts
        · rw [if_pos hm] at h
          simp at h
        · rw [if_neg hm] at h
          rcases hrest : walkHash exts rest with er | more
          · rw [hrest] at h; simp at h
          · rw [hrest] at h
            obtain rfl : more = frs := by simpa using h
            obtain ⟨e, he, hrest'⟩ := ih more hrest hfr
            exact ⟨e, List.mem_cons_of_mem _ he, hrest'⟩
      · rw [hc, hashMatches_some_eq] at h
        rcases hrest : walkHash exts rest with er | more
        · rw [hrest] at h; simp at h
        · rw [hrest] at h
          obtain rfl :
              List.replicate (exts.count (filepathExt e0.path))
                ⟨e0.path, "MD5", md5Sum buf⟩ ++ more = frs := by simpa using h
          rcases List.mem_append.mp hfr with hin | hin
          · obtain ⟨hn, rfl⟩ := List.mem_replicate.mp hin
            refine ⟨e0, List.mem_cons_self _ _, by simpa using hd0, rfl, rfl, ?_, buf, hc, rfl⟩
            by_contra hm
            exact hn (by simpa using List.count_eq_zero_of_not_mem hm)
          · obtain ⟨e, he, hrest'⟩ := ih more hrest hin
            exact ⟨e, List.mem_cons_of_mem _ he, hrest'⟩

/-- Conversely, every non-directory entry whose extension is in the list
contributes at least one `FileResult` with its path to a successful
walk. -/
theorem walkHash_ok_exists (exts : List String) (entries : List WalkEntry)
    (frs : List FileResult) (e : WalkEntry)
    (h : walkHash exts entries = .ok frs) (he : e ∈ entries)
    (hd : e.isDir = false) (hm : filepathExt e.path ∈ exts) :
    ∃ fr ∈ frs, fr.Path = e.path := by
  induction entries generalizing frs with
  | nil => simp at he
  | cons e0 rest ih =>
    rcases List.mem_cons.mp he with rfl | he'
    · simp only [walkHash, hd, if_false] at h
      rcases hc : e.content with _ | buf
      · rw [hc, hashMatches_none_eq, if_pos hm] at h
        simp at h
      · rw [hc, hashMatches_some_eq] at h
        rcases hrest : walkHash exts rest with er | more
        · rw [hrest] at h; simp at h
        · rw [hrest] at h
          obtain rfl :
              List.replicate (exts.count (filepathExt e.path))
                ⟨e.path, "MD5", md5Sum buf⟩ ++ more = frs := by simpa using h
          refine ⟨⟨e.path, "MD5", md5Sum buf⟩, List.mem_append_left _ ?_, rfl⟩
          exact List.mem_replicate.mpr ⟨by have := List.count_pos_iff.mpr hm; omega, rfl⟩
    · by_cases hd0 : e0.isDir = true
      · simp only [walkHash, hd0, if_true] at h
        exact ih frs h he'
      · simp only [walkHash, hd0, if_false] at h
        rcases hh : hashMatches exts e0.path e0.content with er | l
        · rw [hh] at h; simp at h
        · rw [hh] at h
          rcases hrest : walkHash exts rest with er | more
          · rw [hrest] at h; simp at h
          · rw [hrest] at h
            obtain rfl : l ++ more = frs := by simpa using h
            obtain ⟨fr, hfr, hp⟩ := ih more hrest he'
            exact ⟨fr, List.mem_append_right _ hfr, hp⟩

/-- If some non-directory entry with a listed extension is unreadable, the
whole walk aborts with an error. -/
theorem walkHash_error_of_unreadable (exts : List String)
    (entries : List WalkEntry) (e : WalkEntry) (he : e ∈ entries)
    (hd : e.isDir = false) (hc : e.content = none)
    (hm : filepathExt e.path ∈ exts) :
    ∃ er, walkHash exts entries = .error er := by
  induction entries with
  | nil => simp at he
  | cons e0 rest ih =>
    rcases List.mem_cons.mp he with rfl | he'
    · refine ⟨"read error: " ++ e.path, ?_⟩
      simp only [walkHash, hd, if_false]
      rw [hc, hashMatches_none_eq, if_pos hm]
      simp
    · by_cases hd0 : e0.isDir = true
      · obtain ⟨er, hrest⟩ := ih he'
        exact ⟨er, by simp only [walkHash, hd0, if_true]; exact hrest⟩
      · rcases hh : hashMatches exts e0.path e0.content with er0 | l
        · exact ⟨er0, by simp only [walkHash, hd0, if_false]; rw [hh]; simp⟩
        · obtain ⟨er, hrest⟩ := ih he'
          refine ⟨er, ?_⟩
          simp only [walkHash, hd0, if_false]
          rw [hh, hrest]
          simp

/-! ## Claims about processGit -/

/-- C10: the per-file inclusion check iterates over the whole extension
list without stopping at the first match, so a readable file whose
extension occurs `k` times in the extension list contributes exactly `k`
identical `FileResult` entries (same path, same digest) to the digest
list. -/
theorem hashMatches_duplicate_extensions (exts : List String) (p : String)
    (buf : List Nat) :
    hashMatches exts p (some buf) =
      Except.ok (List.replicate (exts.count (filepathExt p))
        ⟨p, "MD5", md5Sum buf⟩) :=
  hashMatches_some_eq exts p buf

/-- C6 (amended): `processGit` leaves every field of the work item
unchanged except `CheckoutOptions.Force`, which it sets to `true` once
materialization reaches the checkout step (on earlier failures the item
is returned untouched). -/
theorem processGit_preserves_all_but_force (env : GitEnv) (item : Result) :
    (processGit env item).repoInfo = item ∨
    (processGit env item).repoInfo =
      { item with CheckoutOptions :=
        { item.CheckoutOptions with Force := true } } := by
  unfold processGit
  split
  · exact Or.inl rfl
  · split
    · exact Or.inl rfl
    · split
      · exact Or.inl rfl
      · dsimp only
        split
        · exact Or.inr rfl
        · split
          · exact Or.inr rfl
          · exact Or.inr rfl

/-- Environment for the `Force`-mutation counterexample: every effectful
step succeeds and the tree is empty. -/
def c6Env : GitEnv := ⟨.ok "/tmp/checkout456", true, true, true, [], none⟩

/-- Work item enqueued with `CheckoutOptions.Force = false`. -/
def c6Item : Result := ⟨"repoY", .git, ⟨[5], "main", false⟩, [], [5]⟩

/-- C6 (counterexample): the work item is not consumed read-only — after
`processGit` the caller-visible item has `CheckoutOptions.Force = true`
although it was enqueued with `false`, so its fields are not all
unchanged. -/
theorem processGit_force_counterexample :
    (processGit c6Env c6Item).repoInfo.CheckoutOptions.Force = true ∧
    c6Item.CheckoutOptions.Force = false ∧
    (processGit c6Env c6Item).repoInfo ≠ c6Item := by
  refine ⟨rfl, rfl, ?_⟩
  decide

/-- C5 (amended): every `FileResult` handed to `Store` carries the full
traversal path — the private checkout directory joined with the file's
relative path, not the relative path alone — together with the `"MD5"`
tag and the digest of the file's content. -/
theorem processGit_paths_include_root (env : GitEnv) (item : Result)
    (repoDir : String) (c : Result × List FileResult) (fr : FileResult)
    (hcopy : env.copyRes = Except.ok repoDir)
    (hc : c ∈ (processGit env item).storeCalls) (hfr : fr ∈ c.2) :
    fr.HashType = "MD5" ∧
    ∃ e ∈ env.entries, e.isDir = false ∧ fr.Path = pathJoin repoDir e.rel ∧
      ∃ buf, e.content = some buf ∧ fr.Hash = md5Sum buf := by
  unfold processGit at hc
  split at hc
  · exact absurd hc (by simp)
  · next rd heq =>
    rw [hcopy] at heq
    injection heq with heq
    subst heq
    by_cases h1 : env.openOk = false
    · rw [if_pos h1] at hc; exact absurd hc (by simp)
    · rw [if_neg h1] at hc
      by_cases h2 : env.worktreeOk = false
      · rw [if_pos h2] at hc; exact absurd hc (by simp)
      · rw [if_neg h2] at hc
        dsimp only at hc
        by_cases h3 : env.checkoutOk = false
        · rw [if_pos h3] at hc; exact absurd hc (by simp)
        · rw [if_neg h3] at hc
          rcases hw : walkHash item.FileExts (walkEntries repoDir env.entries)
            with er | frs'
          · rw [hw] at hc; exact absurd hc (by simp)
          · rw [hw] at hc
            simp at hc
            obtain ⟨e', he', hd', hp', hht', _, buf, hcont', hhash'⟩ :=
              walkHash_ok_mem _ _ _ _ hw (show fr ∈ frs' by
                rw [hc] at hfr; simpa using hfr)
            rcases List.mem_cons.mp he' with rfl | he2
            · simp at hd'
            · obtain ⟨e0, he0, rfl⟩ := List.mem_map.mp he2
              exact ⟨hht', e0, he0, by simpa using hd', by simpa using hp',
                buf, by simpa using hcont', hhash'⟩

/-- Environment for the path-shape counterexample: a successful checkout
of a tree holding one matching file `a.c`. -/
def c5Env : GitEnv :=
  ⟨.ok "/tmp/checkout123", true, true, true, [⟨"a.c", false, some []⟩], none⟩

/-- Work item requesting the `.c` extension. -/
def c5Item : Result := ⟨"repoX", .git, ⟨[], "", false⟩, [".c"], [4]⟩

/-- C5 (counterexample): the stored path is not relative to the working
tree root — the single `FileResult` produced for `a.c` carries the full
path `/tmp/checkout123/a.c` (the private checkout directory's path joined
with the relative path), which differs from the relative path `a.c`. -/
theorem processGit_path_counterexample :
    ((processGit c5Env c5Item).storeCalls.map (fun c => c.2.map FileResult.Path)) =
      [["/tmp/checkout123/a.c"]] ∧
    ("/tmp/checkout123/a.c" : String) ≠ "a.c" := by
  exact ⟨rfl, by decide⟩

/-- Witness for `processGit_paths_include_root` at the run of `c5Env`: the
produced `FileResult`'s path is the checkout directory joined with the
entry's relative path. -/
theorem processGit_paths_include_root_witness :
    (⟨"/tmp/checkout123/a.c", "MD5", md5Sum []⟩ : FileResult).HashType = "MD5" ∧
    ∃ e ∈ c5Env.entries, e.isDir = false ∧
      (⟨"/tmp/checkout123/a.c", "MD5", md5Sum []⟩ : FileResult).Path =
        pathJoin "/tmp/checkout123" e.rel ∧
      ∃ buf, e.content = some buf ∧
        (⟨"/tmp/checkout123/a.c", "MD5", md5Sum []⟩ : FileResult).Hash = md5Sum buf :=
  processGit_paths_include_root c5Env c5Item "/tmp/checkout123"
    ({ c5Item with CheckoutOptions := { c5Item.CheckoutOptions with Force := true } },
      [⟨"/tmp/checkout123/a.c", "MD5", md5Sum []⟩])
    ⟨"/tmp/checkout123/a.c", "MD5", md5Sum []⟩ rfl
    (List.mem_singleton.mpr rfl) (List.mem_singleton.mpr rfl)

/-- C7: if reading any single matched file during the traversal fails, the
whole hashing pass for that work item returns an error and `Store` is
never called for that item — a partial digest list is never persisted. -/
theorem processGit_read_error_no_store (env : GitEnv) (item : Result)
    (repoDir : String) (e : FSEntry)
    (hcopy : env.copyRes = Except.ok repoDir)
    (he : e ∈ env.entries) (hdir : e.isDir = false) (hread : e.content = none)
    (hmatch : filepathExt (pathJoin repoDir e.rel) ∈ item.FileExts) :
    (processGit env item).storeCalls = [] ∧
    (processGit env item).error ≠ none := by
  have hwe : (⟨pathJoin repoDir e.rel, e.isDir, e.content⟩ : WalkEntry) ∈
      walkEntries repoDir env.entries :=
    List.mem_cons_of_mem _ (List.mem_map.mpr ⟨e, he, rfl⟩)
  obtain ⟨er, herr⟩ := walkHash_error_of_unreadable item.FileExts
    (walkEntries repoDir env.entries) ⟨pathJoin repoDir e.rel, e.isDir, e.content⟩
    hwe (by simpa using hdir) (by simpa using hread) (by simpa using hmatch)
  unfold processGit
  split
  · exact ⟨rfl, by simp⟩
  · next rd heq =>
    rw [hcopy] at heq
    injection heq with heq
    subst heq
    by_cases h1 : env.openOk = false
    · rw [if_pos h1]; exact ⟨rfl, by simp⟩
    · rw [if_neg h1]
      by_cases h2 : env.worktreeOk = false
      · rw [if_pos h2]; exact ⟨rfl, by simp⟩
      · rw [if_neg h2]
        dsimp only
        by_cases h3 : env.checkoutOk = false
        · rw [if_pos h3]; exact ⟨rfl, by simp⟩
        · rw [if_neg h3]
          rw [herr]
          exact ⟨rfl, by simp⟩

/-- Environment whose tree holds a readable matching file followed by an
unreadable matching file. -/
def c7Env : GitEnv :=
  ⟨.ok "/tmp/checkout789", true, true, true,
    [⟨"ok.c", false, some [1, 2]⟩, ⟨"bad.c", false, none⟩], none⟩

/-- Work item requesting the `.c` extension for the `c7Env` run. -/
def c7Item : Result := ⟨"repoZ", .git, ⟨[], "", false⟩, [".c"], [6]⟩

/-- Witness for `processGit_read_error_no_store`: with a readable `ok.c`
already hashed and an unreadable `bad.c`, nothing is stored and the item
fails. -/
theorem processGit_read_error_no_store_witness :
    (processGit c7Env c7Item).storeCalls = [] ∧
    (processGit c7Env c7Item).error ≠ none :=
  processGit_read_error_no_store c7Env c7Item "/tmp/checkout789"
    ⟨"bad.c", false, none⟩ rfl (by decide) rfl rfl (by decide)

/-- C8: when a work item's hashing pass succeeds and its digest list is
stored, a path occurs among the stored `FileResult`s iff it is the
(root-joined) path of a non-directory entry of the tree whose extension,
as computed by `filepath.Ext` (case-sensitive), is a member of the work
item's extension list; directories are never included and non-matching
files are skipped. -/
theorem processGit_extension_filter (env : GitEnv) (item ri : Result)
    (frs : List FileResult) (repoDir p : String)
    (hcopy : env.copyRes = Except.ok repoDir)
    (hstore : (processGit env item).storeCalls = [(ri, frs)]) :
    (∃ fr ∈ frs, fr.Path = p) ↔
      ∃ e ∈ env.entries, e.isDir = false ∧ pathJoin repoDir e.rel = p ∧
        filepathExt p ∈ item.FileExts := by
  unfold processGit at hstore
  split at hstore
  · simp at hstore
  · next rd heq =>
    rw [hcopy] at heq
    injection heq with heq
    subst heq
    by_cases h1 : env.openOk = false
    · rw [if_pos h1] at hstore; simp at hstore
    · rw [if_neg h1] at hstore
      by_cases h2 : env.worktreeOk = false
      · rw [if_pos h2] at hstore; simp at hstore
      · rw [if_neg h2] at hstore
        dsimp only at hstore
        by_cases h3 : env.checkoutOk = false
        · rw [if_pos h3] at hstore; simp at hstore
        · rw [if_neg h3] at hstore
          rcases hw : walkHash item.FileExts (walkEntries repoDir env.entries)
            with er | frs'
          · rw [hw] at hstore; simp at hstore
          · rw [hw] at hstore
            simp at hstore
            obtain ⟨-, hfs⟩ := hstore
            subst hfs
            constructor
            · rintro ⟨fr, hfr, rfl⟩
              obtain ⟨e', he', hd', hp', -, hm', -⟩ :=
                walkHash_ok_mem _ _ _ _ hw hfr
              rcases List.mem_cons.mp he' with rfl | he2
              · simp at hd'
              · obtain ⟨e0, he0, rfl⟩ := List.mem_map.mp he2
                refine ⟨e0, he0, by simpa using hd', by simpa using hp'.symm, ?_⟩
                rw [hp']
                simpa using hm'
            · rintro ⟨e0, he0, hd0, hp0, hm0⟩
              have hwe : (⟨pathJoin repoDir e0.rel, e0.isDir, e0.content⟩ : WalkEntry) ∈
                  walkEntries repoDir env.entries :=
                List.mem_cons_of_mem _ (List.mem_map.mpr ⟨e0, he0, rfl⟩)
              obtain ⟨fr, hfr, hp⟩ := walkHash_ok_exists _ _ _ _ hw hwe
                (by simpa using hd0) (by simpa [hp0] using hm0)
              exact ⟨fr, hfr, by rw [hp]; simpa using hp0⟩

/-- Environment with a matching file, a non-matching file and a
subdirectory, all under a successful checkout. -/
def c8Env : GitEnv :=
  ⟨.ok "/r", true, true, true,
    [⟨"a.c", false, some []⟩, ⟨"b.go", false, some []⟩, ⟨"sub", true, none⟩], none⟩

/-- Work item requesting the `.c` extension for the `c8Env` run. -/
def c8Item : Result := ⟨"repoW", .git, ⟨[], "", false⟩, [".c"], [7]⟩

/-- The work item as stored by the `c8Env` run (with `Force` set). -/
def c8Ri : Result :=
  { c8Item with CheckoutOptions := { c8Item.CheckoutOptions with Force := true } }

/-- The digest list stored by the `c8Env` run: only `a.c` is hashed. -/
def c8Frs : List FileResult := [⟨"/r/a.c", "MD5", md5Sum []⟩]

/-- Witness for `processGit_extension_filter` at the `c8Env` run and the
path `/r/a.c`. -/
theorem processGit_extension_filter_witness :
    (∃ fr ∈ c8Frs, fr.Path = "/r/a.c") ↔
      ∃ e ∈ c8Env.entries, e.isDir = false ∧ pathJoin "/r" e.rel = "/r/a.c" ∧
        filepathExt "/r/a.c" ∈ c8Item.FileExts :=
  processGit_extension_filter c8Env c8Item c8Ri c8Frs "/r" "/r/a.c" rfl rfl

/-! ## Storage key normalization

The storage layer (`docker/indexer/storage/storage.go`) is not among the
sources; only its test `storage_test.go` is.  Its key normalization is
therefore modelled from the spec and checked against the test's
fixtures. -/

/-- Width of the stored revision key: the size of git's native hash,
twenty bytes. -/
def commitWidth : Nat := 20

/-- Modelled from the spec: the Index Writer's revision-key normalization
(`newDoc` of `docker/indexer/storage/storage.go`, which is missing from
the sources) — "Normalizes `revision` to the fixed key width (pad right
with zero bytes if shorter; use leading bytes if longer/equal)". -/
def padCommit (b : List Nat) : List Nat :=
  b.take commitWidth ++ List.replicate (commitWidth - b.length) 0

/-- The persisted `document` with the fields compared by `TestNewDoc` of
`storage_test.go`: name, fixed-width commit key and hash algorithm tag.
(The page-count argument of the test's `getDoc` helper does not enter the
expected document.) -/
structure document where
  Name : String
  Commit : List Nat
  FileHashType : String
deriving DecidableEq, Repr

/-- Modelled from the spec: `newDoc` of the missing
`docker/indexer/storage/storage.go` builds the persisted document from a
`preparation.Result` and the hash algorithm tag, storing the revision at
the fixed key width. -/
def newDoc (repoInfo : Result) (hashType : String) : document :=
  ⟨repoInfo.Name, padCommit repoInfo.Commit, hashType⟩

/-- The `getRepoInfo` fixture of `storage_test.go`: repository `"abc"`
with the four-byte revision `0x41414141` (the test writes it as a
`[20]byte` literal whose remaining bytes Go zero-fills; the spec's example
scenario presents it as a 4-byte input revision; the fields the fixture
leaves unset are zero values). -/
def getRepoInfo : Result :=
  ⟨"abc", .unknown, ⟨[], "", false⟩, [], [0x41, 0x41, 0x41, 0x41]⟩

/-- The `getDoc` fixture of `storage_test.go`: the expected document, with
the commit key `0x41414141` followed by sixteen zero bytes. -/
def getDoc : document :=
  ⟨"abc",
   [0x41, 0x41, 0x41, 0x41, 0, 0, 0, 0, 0, 0, 0, 0, 0, 0, 0, 0, 0, 0, 0, 0],
   "MD5"⟩

/-- C4: revision-key normalization.  A revision shorter than the width
twenty is stored left-aligned and zero-padded on the right to twenty
bytes; a revision of twenty or more bytes is truncated to its first
twenty bytes; and the four-byte revision `0x41414141` is stored as
`0x41414141` followed by sixteen zero bytes, matching `TestNewDoc`'s
fixtures. -/
theorem padCommit_normalizes (b : List Nat) :
    (padCommit b =
      if b.length < commitWidth then b ++ List.replicate (commitWidth - b.length) 0
      else b.take commitWidth) ∧
    newDoc getRepoInfo "MD5" = getDoc := by
  constructor
  · by_cases h : b.length < commitWidth
    · rw [if_pos h, padCommit, List.take_of_length_le (Nat.le_of_lt h)]
    · rw [if_neg h, padCommit, Nat.sub_eq_zero_of_le (Nat.le_of_not_lt h)]
      simp
  · rfl
